import Mathlib

/-!
Shallow embedding of the WAQL query tool's core pipeline
(`src/query_executor.rs` and `src/waapi/client.rs`): query splitting,
result normalization into a table, CSV export, and the executor
orchestration, together with theorems about them.

JSON values are modelled with objects as insertion-ordered key/value
lists (`serde_json::Map` with key order preserved, per the spec's data
model); numbers are modelled as integers rendered in decimal.
-/

namespace WaqlTool

/-- JSON value. Objects are ordered key/value lists. -/
inductive Json where
  | null : Json
  | bool (b : Bool) : Json
  | num (n : Int) : Json
  | str (s : String) : Json
  | arr (items : List Json) : Json
  | obj (fields : List (String × Json)) : Json

/-- `Value::as_array`. -/
def Json.asArray : Json → Option (List Json)
  | .arr items => some items
  | _ => none

/-- `Value::as_object`. -/
def Json.asObject : Json → Option (List (String × Json))
  | .obj fields => some fields
  | _ => none

/-- Lookup of a key in an ordered JSON object (`Map::get`). -/
def getKey (fields : List (String × Json)) (k : String) : Option Json :=
  (fields.find? (fun p => p.1 = k)).map (fun p => p.2)

/-- `Value::get(key)`: key lookup, `none` on non-objects. -/
def Json.get : Json → String → Option Json
  | .obj fields, k => getKey fields k
  | _, _ => none

/-- Rust `str::trim_start`: drop leading whitespace. -/
def ltrim (s : String) : String := ⟨s.data.dropWhile Char.isWhitespace⟩

/-- Rust `str::trim_end`: drop trailing whitespace. -/
def rtrim (s : String) : String := ⟨(s.data.reverse.dropWhile Char.isWhitespace).reverse⟩

/-- Rust `str::trim`: drop whitespace from both ends. -/
def trim (s : String) : String := ltrim (rtrim s)

/-- Helper for `str::split_once` on a list of characters. -/
def splitOnceList (c : Char) : List Char → Option (List Char × List Char)
  | [] => none
  | x :: xs =>
    if x = c then some ([], xs)
    else (splitOnceList c xs).map (fun p => (x :: p.1, p.2))

/-- Rust `str::split_once(c)`: split at the first occurrence of `c`. -/
def splitOnce (s : String) (c : Char) : Option (String × String) :=
  (splitOnceList c s.data).map (fun p => (⟨p.1⟩, ⟨p.2⟩))

/-- Helper for `str::split_whitespace`: accumulate the current token (reversed). -/
def splitWsAux : List Char → List Char → List String
  | [], acc => if acc = [] then [] else [⟨acc.reverse⟩]
  | c :: cs, acc =>
    if c.isWhitespace then
      if acc = [] then splitWsAux cs [] else ⟨acc.reverse⟩ :: splitWsAux cs []
    else splitWsAux cs (c :: acc)

/-- Rust `str::split_whitespace`: the non-empty tokens between runs of whitespace. -/
def splitWhitespace (s : String) : List String := splitWsAux s.data []

/-- The options value built by `parse_query` from the trimmed options text:
`None` if empty, else the object `{"return": [tokens]}` with the
whitespace-split tokens. -/
def mkOptions (optionsStr : String) : Option Json :=
  if optionsStr = "" then none
  else some (Json.obj [("return", Json.arr ((splitWhitespace optionsStr).map Json.str))])

/-- `QueryExecutor::parse_query`: split the input on the first `|` into the
query clause (trimmed) and the options. -/
def parse_query (code : String) : String × Option Json :=
  match splitOnce code '|' with
  | some (queryPart, optionsPart) => (trim queryPart, mkOptions (trim optionsPart))
  | none => (code, none)

/-- JSON string escaping used by the serializer (`serde_json`). -/
def escapeChar (c : Char) : String :=
  if c = '"' then "\\\""
  else if c = '\\' then "\\\\"
  else if c = '\n' then "\\n"
  else if c = '\r' then "\\r"
  else if c = '\t' then "\\t"
  else if c.toNat = 8 then "\\b"
  else if c.toNat = 12 then "\\f"
  else if c.toNat < 32 then
    "\\u00" ++ ⟨[Nat.digitChar (c.toNat / 16), Nat.digitChar (c.toNat % 16)]⟩
  else ⟨[c]⟩

/-- A JSON string literal: quoted, with escapes. -/
def quoteStr (s : String) : String :=
  "\"" ++ (s.data.map escapeChar).foldl (fun a b => a ++ b) "" ++ "\""

mutual

/-- `serde_json::to_string`: compact JSON text. -/
def compactString : Json → String
  | .null => "null"
  | .bool b => if b then "true" else "false"
  | .num n => toString n
  | .str s => quoteStr s
  | .arr items => "[" ++ compactArr items ++ "]"
  | .obj fields => "\x7b" ++ compactObj fields ++ "\x7d"

/-- Compact rendering of array elements, comma-separated. -/
def compactArr : List Json → String
  | [] => ""
  | [x] => compactString x
  | x :: y :: xs => compactString x ++ "," ++ compactArr (y :: xs)

/-- Compact rendering of object members, comma-separated. -/
def compactObj : List (String × Json) → String
  | [] => ""
  | [kv] => quoteStr kv.1 ++ ":" ++ compactString kv.2
  | kv :: kv2 :: fs => quoteStr kv.1 ++ ":" ++ compactString kv.2 ++ "," ++ compactObj (kv2 :: fs)

end

/-- Two spaces of indentation per nesting level (`serde_json` pretty printer). -/
def indentStr (n : Nat) : String := ⟨List.replicate (2 * n) ' '⟩

mutual

/-- `serde_json::to_string_pretty` at a given nesting depth. -/
def pretty : Nat → Json → String
  | _, .null => "null"
  | _, .bool b => if b then "true" else "false"
  | _, .num n => toString n
  | _, .str s => quoteStr s
  | _, .arr [] => "[]"
  | d, .arr (x :: xs) => "[\n" ++ prettyArr (d + 1) (x :: xs) ++ "\n" ++ indentStr d ++ "]"
  | _, .obj [] => "\x7b\x7d"
  | d, .obj (kv :: fs) => "\x7b\n" ++ prettyObj (d + 1) (kv :: fs) ++ "\n" ++ indentStr d ++ "\x7d"

/-- Pretty rendering of array elements. -/
def prettyArr : Nat → List Json → String
  | _, [] => ""
  | d, [x] => indentStr d ++ pretty d x
  | d, x :: y :: xs => indentStr d ++ pretty d x ++ ",\n" ++ prettyArr d (y :: xs)

/-- Pretty rendering of object members. -/
def prettyObj : Nat → List (String × Json) → String
  | _, [] => ""
  | d, [kv] => indentStr d ++ quoteStr kv.1 ++ ": " ++ pretty d kv.2
  | d, kv :: kv2 :: fs =>
    indentStr d ++ quoteStr kv.1 ++ ": " ++ pretty d kv.2 ++ ",\n" ++ prettyObj d (kv2 :: fs)

end

/-- `serde_json::to_string_pretty`. -/
def to_string_pretty (v : Json) : String := pretty 0 v

/-- `QueryExecutor::value_to_string`: stringify one JSON value for a table cell. -/
def value_to_string : Json → String
  | .str s => s
  | .num n => toString n
  | .bool b => if b then "true" else "false"
  | .null => "null"
  | v => compactString v

/-- `TableData`: column names plus rows. A row is the ordered list of
(column, cell text) pairs (the Rust `HashMap<String, String>` holds exactly
these bindings). -/
structure TableData where
  columns : List String
  rows : List (List (String × String))

/-- One step of column discovery: append a key unless already seen (the Rust
code tracks seen keys with a `HashSet` kept in sync with `columns`, so
`columns_set.insert(key)` succeeds exactly when the key is not yet a column). -/
def insertKey (cols : List String) (k : String) : List String :=
  if k ∈ cols then cols else cols ++ [k]

/-- The inner loop of column discovery: append each key of one object the
first time it is seen. -/
def insertKeys (cols : List String) (fields : List (String × Json)) : List String :=
  fields.foldl (fun cs kv => insertKey cs kv.1) cols

/-- Column discovery of `parse_table_data`: collect keys of object elements
in first-seen order. -/
def collectColumns (items : List Json) : List String :=
  items.foldl
    (fun cols item =>
      match item with
      | .obj fields => insertKeys cols fields
      | _ => cols)
    []

/-- Row construction of `parse_table_data`: one cell per column, stringified
if the key is present, empty string otherwise (`unwrap_or_default`). -/
def buildRow (cols : List String) (fields : List (String × Json)) : List (String × String) :=
  cols.map (fun col => (col, ((getKey fields col).map value_to_string).getD ""))

/-- `QueryExecutor::parse_table_data`: extract the `"return"` array and
normalize it into a table; `none` when absent, not an array, or empty. -/
def parse_table_data (result : Json) : Option TableData :=
  match (result.get "return").bind Json.asArray with
  | none => none
  | some return_array =>
    if return_array.isEmpty then none
    else
      let columns := collectColumns return_array
      let rows := return_array.filterMap
        (fun item =>
          match item with
          | .obj fields => some (buildRow columns fields)
          | _ => none)
      some { columns := columns, rows := rows }

/-- CSV field quoting of the `csv` crate: quote a field containing the
delimiter, the quote character, or a line break, doubling inner quotes. -/
def csvField (s : String) : String :=
  if s.data.any (fun c => c = ',' ∨ c = '"' ∨ c = '\n' ∨ c = '\r') then
    "\"" ++ ⟨s.data.flatMap (fun c => if c = '"' then ['"', '"'] else [c])⟩ ++ "\""
  else s

/-- One CSV record: fields joined by commas. -/
def csvRecord (fields : List String) : String :=
  String.intercalate "," (fields.map csvField)

/-- Lookup of a column's cell in a row, empty string when absent
(`row.get(col).unwrap_or("")`). -/
def rowLookup (row : List (String × String)) (col : String) : String :=
  ((row.find? (fun p => p.1 = col)).map (fun p => p.2)).getD ""

/-- `TableData::export_to_csv`, as the list of records written: the header
record with the columns, then one record per row giving each column's cell. -/
def export_to_csv (t : TableData) : List String :=
  csvRecord t.columns ::
    t.rows.map (fun row => csvRecord (t.columns.map (fun col => rowLookup row col)))

/-- `QueryResult`: pretty raw JSON, optional table, and row count. -/
structure QueryResult where
  raw_json : String
  table_data : Option TableData
  count : Nat

/-- The `execute` error message for an empty query
("请输入 WAQL 查询语句"). -/
def emptyQueryMsg : String := "请输入 WAQL 查询语句"

/-- The prefix `execute` puts before a client error ("查询失败: "). -/
def queryFailedPrefix : String := "查询失败: "

/-- `QueryExecutor::execute`, parameterized by the WAAPI client call
(`client.waql_query`), which maps the clause and options to either a
top-level JSON object (its field list) or an error message. -/
def execute (waql_query : String → Option Json → Except String (List (String × Json)))
    (code : String) : Except String QueryResult :=
  if trim code = "" then .error emptyQueryMsg
  else
    match waql_query (parse_query (trim code)).1 (parse_query (trim code)).2 with
    | .ok result =>
      .ok { raw_json := to_string_pretty (Json.obj result),
            table_data := parse_table_data (Json.obj result),
            count := ((parse_table_data (Json.obj result)).map (fun t => t.rows.length)).getD 0 }
    | .error e => .error (queryFailedPrefix ++ e)

/-- The transport error message of `waapi::client::call` for a non-object
top-level response ("返回的结果不是 JSON 对象"). -/
def notAnObjectMsg : String := "返回的结果不是 JSON 对象"

/-- The response-classification step of `waapi::client::call`: after the body
has parsed to a JSON value, return its top-level object, or fail with the
not-an-object error (`result.as_object().cloned().ok_or_else(...)`). -/
def classifyResponse (result : Json) : Except String (List (String × Json)) :=
  match result.asObject with
  | some m => .ok m
  | none => .error notAnObjectMsg

/-! ### Example values from the specification -/

/-- The spec's running example response:
`{"return": [{"a":1,"b":"x"}, {"b":"y","c":true}]}`. -/
def exReturnAB : Json :=
  Json.obj [("return", Json.arr
    [Json.obj [("a", Json.num 1), ("b", Json.str "x")],
     Json.obj [("b", Json.str "y"), ("c", Json.bool true)]])]

/-- The element list of `exReturnAB`. -/
def exItemsAB : List Json :=
  [Json.obj [("a", Json.num 1), ("b", Json.str "x")],
   Json.obj [("b", Json.str "y"), ("c", Json.bool true)]]

/-- A response whose single object lists its keys in non-alphabetical order:
`{"return": [{"b":1,"a":2}]}`. -/
def exReturnBA : Json :=
  Json.obj [("return", Json.arr [Json.obj [("b", Json.num 1), ("a", Json.num 2)]])]

/-- A client stub whose response is `{"return": [{"a":1}]}`. -/
def clientOneRow : String → Option Json → Except String (List (String × Json)) :=
  fun _ _ => .ok [("return", Json.arr [Json.obj [("a", Json.num 1)]])]

/-- The query result `execute` produces with `clientOneRow`. -/
def resultOneRow : QueryResult :=
  { raw_json := to_string_pretty (Json.obj [("return", Json.arr [Json.obj [("a", Json.num 1)]])]),
    table_data := some { columns := ["a"], rows := [[("a", "1")]] },
    count := 1 }

/-! ### Specification-side notions -/

/-- The keys of a JSON value: the key list of an object, nothing otherwise
(non-objects are skipped by column discovery). -/
def objKeys : Json → List String
  | .obj fields => fields.map Prod.fst
  | _ => []

/-- The spec's "global first-seen order": keep each key's first occurrence,
in order of appearance. -/
def firstSeen : List String → List String
  | [] => []
  | k :: ks => k :: firstSeen (ks.filter (fun x => decide (x ≠ k)))
  termination_by l => l.length
  decreasing_by
    simp only [List.length_cons]
    exact Nat.lt_succ_of_le (List.length_filter_le _ _)

/-! ### Lemmas: column discovery realizes first-seen order -/

theorem insertKey_mem (cols : List String) (k : String) (h : k ∈ cols) :
    insertKey cols k = cols := by
  simp [insertKey, h]

theorem insertKey_not_mem (cols : List String) (k : String) (h : k ∉ cols) :
    insertKey cols k = cols ++ [k] := by
  simp [insertKey, h]

theorem foldl_insertKey_firstSeen :
    ∀ (n : Nat) (ks : List String), ks.length ≤ n → ∀ acc : List String,
      ks.foldl insertKey acc = acc ++ firstSeen (ks.filter (fun x => decide (x ∉ acc)))
  | _, [], _, acc => by simp [firstSeen]
  | 0, k :: ks, h, acc => by simp at h
  | n + 1, k :: ks, h, acc => by
    have hlen : ks.length ≤ n := Nat.le_of_succ_le_succ h
    by_cases hk : k ∈ acc
    · rw [List.foldl_cons, insertKey_mem acc k hk,
        foldl_insertKey_firstSeen n ks hlen acc]
      simp [List.filter_cons, hk]
    · rw [List.foldl_cons, insertKey_not_mem acc k hk,
        foldl_insertKey_firstSeen n ks hlen (acc ++ [k])]
      have hfilter : ks.filter (fun x => decide (x ∉ acc ++ [k]))
          = (ks.filter (fun x => decide (x ∉ acc))).filter (fun x => decide (x ≠ k)) := by
        rw [List.filter_filter]
        apply List.filter_congr
        intro x _
        simp only [List.mem_append, List.mem_singleton, decide_not, Bool.and_comm]
        by_cases h1 : x ∈ acc <;> by_cases h2 : x = k <;> simp [h1, h2]
      rw [hfilter]
      have : (k :: ks).filter (fun x => decide (x ∉ acc))
          = k :: ks.filter (fun x => decide (x ∉ acc)) := by
        simp [List.filter_cons, hk]
      rw [this, firstSeen]
      simp

theorem collectColumns_eq_firstSeen (items : List Json) :
    collectColumns items = firstSeen (items.flatMap objKeys) := by
  have step : ∀ acc : List String,
      (items.foldl
        (fun cols item =>
          match item with
          | .obj fields => insertKeys cols fields
          | _ => cols)
        acc)
      = (items.flatMap objKeys).foldl insertKey acc := by
    induction items with
    | nil => intro acc; simp
    | cons x xs ih =>
      intro acc
      rw [List.foldl_cons, List.flatMap_cons, List.foldl_append, ih]
      congr 1
      cases x <;> simp [objKeys, insertKeys, List.foldl_map]
  rw [collectColumns, step []]
  rw [foldl_insertKey_firstSeen (items.flatMap objKeys).length _ (Nat.le_refl _) []]
  simp

/-! ### Lemmas: trimming -/

theorem dropWhile_self {α : Type} (p : α → Bool) (l : List α) :
    (l.dropWhile p).dropWhile p = l.dropWhile p := by
  induction l with
  | nil => rfl
  | cons x xs ih =>
    by_cases h : p x
    · simpa [List.dropWhile_cons, h] using ih
    · simp [List.dropWhile_cons, h]

theorem dropWhile_head_false {α : Type} (p : α → Bool) (l : List α) (a : α)
    (h : (l.dropWhile p).head? = some a) : p a = false := by
  induction l with
  | nil => simp [List.dropWhile] at h
  | cons x xs ih =>
    by_cases hx : p x
    · exact ih (by simpa [List.dropWhile_cons, hx] using h)
    · rw [List.dropWhile_cons_of_neg (by simp [hx])] at h
      simp only [List.head?_cons, Option.some.injEq] at h
      rw [← h]
      simp [hx]

theorem dropWhile_of_head_false {α : Type} (p : α → Bool) (l : List α)
    (h : ∀ a, l.head? = some a → p a = false) : l.dropWhile p = l := by
  cases l with
  | nil => rfl
  | cons x xs => simp [List.dropWhile_cons, h x rfl]

theorem getLast?_dropWhile {α : Type} (p : α → Bool) (l : List α)
    (h : l.dropWhile p ≠ []) : (l.dropWhile p).getLast? = l.getLast? := by
  induction l with
  | nil => simp [List.dropWhile] at h
  | cons x xs ih =>
    by_cases hx : p x
    · rw [List.dropWhile_cons_of_pos hx] at h ⊢
      rw [ih h]
      have hxs : xs ≠ [] := by
        intro heq
        rw [heq] at h
        simp [List.dropWhile] at h
      cases xs with
      | nil => exact absurd rfl hxs
      | cons y ys => simp [List.getLast?_cons_cons]
    · rw [List.dropWhile_cons_of_neg (by simp [hx])]

theorem ltrim_data (s : String) : (ltrim s).data = s.data.dropWhile Char.isWhitespace := rfl

theorem rtrim_data (s : String) :
    (rtrim s).data = (s.data.reverse.dropWhile Char.isWhitespace).reverse := rfl

theorem trim_data (s : String) :
    (trim s).data
      = ((s.data.reverse.dropWhile Char.isWhitespace).reverse).dropWhile Char.isWhitespace :=
  rfl

theorem data_eq_nil_iff (s : String) : s.data = [] ↔ s = "" := by
  constructor
  · intro h
    cases s with
    | mk d => simpa [String.ext_iff] using h
  · intro h
    rw [h]

/-- The head of a trimmed non-empty string is not whitespace. -/
theorem trim_head_not_ws (s : String) (h : trim s ≠ "") :
    ∃ c rest, (trim s).data = c :: rest ∧ c.isWhitespace = false := by
  have hne : (trim s).data ≠ [] := fun hd => h ((data_eq_nil_iff _).mp hd)
  cases hd : (trim s).data with
  | nil => exact absurd hd hne
  | cons c rest =>
    refine ⟨c, rest, rfl, ?_⟩
    have : ((trim s).data).head? = some c := by rw [hd]; rfl
    rw [trim_data] at this
    exact dropWhile_head_false _ _ _ this

/-- `ltrim` fixes a string already stripped of leading whitespace. -/
theorem ltrim_trim (s : String) : ltrim (trim s) = trim s := by
  apply String.ext
  rw [ltrim_data, trim_data]
  exact dropWhile_self _ _

/-- `rtrim` fixes the result of `trim`. -/
theorem rtrim_trim (s : String) : rtrim (trim s) = trim s := by
  apply String.ext
  rw [rtrim_data]
  have key : (trim s).data.reverse.dropWhile Char.isWhitespace = (trim s).data.reverse := by
    apply dropWhile_of_head_false
    intro a ha
    rw [List.head?_reverse, trim_data] at ha
    have hne :
        ((s.data.reverse.dropWhile Char.isWhitespace).reverse).dropWhile Char.isWhitespace
          ≠ [] := by
      intro hnil
      rw [hnil] at ha
      simp at ha
    rw [getLast?_dropWhile _ _ hne, List.getLast?_reverse] at ha
    exact dropWhile_head_false _ _ _ ha
  rw [key, List.reverse_reverse]

/-- Rust `trim` is idempotent. -/
theorem trim_trim (s : String) : trim (trim s) = trim s := by
  rw [trim, rtrim_trim, ltrim_trim]

theorem dropWhile_append_singleton {α : Type} (p : α → Bool) (l : List α) (a : α)
    (h : p a = false) : (l ++ [a]).dropWhile p = l.dropWhile p ++ [a] := by
  induction l with
  | nil => simp [List.dropWhile_cons, h, List.dropWhile_nil]
  | cons x xs ih =>
    by_cases hx : p x
    · simpa [List.dropWhile_cons, hx] using ih
    · simp [List.dropWhile_cons, hx]

/-- Trimming a string whose first character is not whitespace yields a
non-empty string. -/
theorem trim_cons_ne_empty (c : Char) (l : List Char) (hc : c.isWhitespace = false) :
    trim ⟨c :: l⟩ ≠ "" := by
  intro h
  have hd : (trim ⟨c :: l⟩).data = [] := by rw [h]
  rw [trim_data] at hd
  simp only [List.reverse_cons] at hd
  rw [dropWhile_append_singleton _ _ _ hc] at hd
  simp only [List.reverse_append, List.reverse_cons, List.reverse_nil, List.nil_append,
    List.cons_append] at hd
  rw [List.dropWhile_cons_of_neg (by simp [hc])] at hd
  exact List.cons_ne_nil _ _ hd

/-! ### Lemmas: splitting -/

/-- `split_once` characterized by the first occurrence of the separator. -/
theorem splitOnceList_eq (c : Char) : ∀ cs : List Char,
    splitOnceList c cs =
      if c ∈ cs then some (cs.takeWhile (fun x => x != c), (cs.dropWhile (fun x => x != c)).tail)
      else none := by
  intro cs
  induction cs with
  | nil => simp [splitOnceList]
  | cons x xs ih =>
    by_cases hx : x = c
    · subst hx
      simp [splitOnceList, List.takeWhile_cons, List.dropWhile_cons]
    · rw [splitOnceList, if_neg hx, ih]
      by_cases hmem : c ∈ xs
      · have : c ∈ x :: xs := List.mem_cons_of_mem _ hmem
        rw [if_pos hmem, if_pos this]
        have hne : (x != c) = true := by simp [hx]
        simp [List.takeWhile_cons, List.dropWhile_cons, hne]
      · have : c ∉ x :: xs := by
          simp only [List.mem_cons]
          rintro (h | h)
          · exact hx h.symm
          · exact hmem h
        rw [if_neg hmem, if_neg this]
        rfl

/-- Tokens produced by `split_whitespace` are never empty. -/
theorem splitWsAux_ne_empty : ∀ (cs acc : List Char), ∀ t ∈ splitWsAux cs acc, t ≠ "" := by
  intro cs
  induction cs with
  | nil =>
    intro acc t ht
    rw [splitWsAux] at ht
    by_cases ha : acc = []
    · simp [ha] at ht
    · rw [if_neg ha] at ht
      simp only [List.mem_singleton] at ht
      subst ht
      intro h
      have : acc.reverse = [] := by
        have := (data_eq_nil_iff ⟨acc.reverse⟩).mpr h
        simpa using this
      exact ha (by simpa using this)
  | cons x xs ih =>
    intro acc t ht
    rw [splitWsAux] at ht
    by_cases hx : x.isWhitespace
    · rw [if_pos hx] at ht
      by_cases ha : acc = []
      · rw [if_pos ha] at ht
        exact ih [] t ht
      · rw [if_neg ha] at ht
        rcases List.mem_cons.mp ht with h | h
        · subst h
          intro h
          have : acc.reverse = [] := by
            have := (data_eq_nil_iff ⟨acc.reverse⟩).mpr h
            simpa using this
          exact ha (by simpa using this)
        · exact ih [] t h
    · rw [if_neg hx] at ht
      exact ih (x :: acc) t ht

theorem splitWhitespace_ne_empty (s : String) : ∀ t ∈ splitWhitespace s, t ≠ "" :=
  splitWsAux_ne_empty s.data []

/-! ### Lemmas: unfolding the pipeline -/

theorem parse_query_eq_of_split (code q o : String) (hs : splitOnce code '|' = some (q, o)) :
    parse_query code = (trim q, mkOptions (trim o)) := by
  unfold parse_query
  rw [hs]

theorem parse_query_eq_of_nosplit (code : String) (hs : splitOnce code '|' = none) :
    parse_query code = (code, none) := by
  unfold parse_query
  rw [hs]

theorem get_bind_asArray (result : Json) (items : List Json) :
    (result.get "return").bind Json.asArray = some items
      ↔ result.get "return" = some (Json.arr items) := by
  cases h : result.get "return" with
  | none => simp
  | some v => cases v <;> simp [Json.asArray]

theorem filterMap_buildRow (cols : List String) (items : List Json) :
    (items.filterMap
      (fun item =>
        match item with
        | Json.obj fields => some (buildRow cols fields)
        | _ => none))
      = (items.filterMap Json.asObject).map (buildRow cols) := by
  induction items with
  | nil => rfl
  | cons x xs ih => cases x <;> simp [Json.asObject, ih]

theorem parse_table_data_some (result : Json) (items : List Json)
    (hret : result.get "return" = some (Json.arr items)) (hne : items ≠ []) :
    parse_table_data result =
      some { columns := collectColumns items,
             rows := (items.filterMap Json.asObject).map (buildRow (collectColumns items)) } := by
  unfold parse_table_data
  rw [(get_bind_asArray result items).mpr hret]
  have : items.isEmpty = false := by
    cases items with
    | nil => exact absurd rfl hne
    | cons x xs => rfl
  simp only [this, Bool.false_eq_true, if_false, filterMap_buildRow]

theorem buildRow_eq_match (cols : List String) (fields : List (String × Json)) :
    buildRow cols fields
      = cols.map (fun col =>
          (col,
           match getKey fields col with
           | some v => value_to_string v
           | none => "")) := by
  unfold buildRow
  apply List.map_congr_left
  intro col _
  cases h : getKey fields col <;> simp [h]

theorem buildRow_keys (cols : List String) (fields : List (String × Json)) :
    (buildRow cols fields).map Prod.fst = cols := by
  unfold buildRow
  rw [List.map_map]
  have h :
      (Prod.fst ∘ fun col => (col, ((getKey fields col).map value_to_string).getD "")) = id := by
    funext col
    rfl
  rw [h, List.map_id]

/-! ### Claim theorems -/

/-- C1: for every JSON object whose `"return"` key holds a non-empty array,
the columns of the normalized table are exactly the keys of the object
elements in global first-seen order — iterating the array in order and each
object's keys in that object's own order, appending a key the first time it
is seen — and not in alphabetical order; in particular the columns for
`{"return": [{"a":1,"b":"x"}, {"b":"y","c":true}]}` are `["a","b","c"]`,
and a single element `{"b":1,"a":2}` yields columns `["b","a"]`. -/
theorem parse_table_data_columns_first_seen (result : Json) (items : List Json)
    (hret : result.get "return" = some (Json.arr items)) (hne : items ≠ []) :
    (∃ t, parse_table_data result = some t ∧ t.columns = firstSeen (items.flatMap objKeys))
    ∧ (parse_table_data exReturnAB).map TableData.columns = some ["a", "b", "c"]
    ∧ (parse_table_data exReturnBA).map TableData.columns = some ["b", "a"] := by
  refine ⟨⟨_, parse_table_data_some result items hret hne, ?_⟩, rfl, rfl⟩
  exact collectColumns_eq_firstSeen items

/-- Witness for C1: the first-seen column order at the spec's example input. -/
theorem parse_table_data_columns_first_seen_witness :
    (parse_table_data exReturnAB).map TableData.columns = some ["a", "b", "c"] :=
  (parse_table_data_columns_first_seen exReturnAB exItemsAB rfl (by simp [exItemsAB])).2.1

/-- C2: whenever normalization succeeds, each object element of the
`"return"` array yields exactly one row with a string entry for every
column: a present key is stringified (string → itself, number → decimal
text, boolean → `"true"`/`"false"`, null → `"null"`, object/array → compact
JSON text), an absent key is stored as the empty string. -/
theorem parse_table_data_rows_spec (result : Json) (items : List Json) (t : TableData)
    (hret : result.get "return" = some (Json.arr items))
    (ht : parse_table_data result = some t) :
    t.rows = (items.filterMap Json.asObject).map
        (fun fields =>
          t.columns.map (fun col =>
            (col,
             match getKey fields col with
             | some v => value_to_string v
             | none => "")))
    ∧ (∀ row ∈ t.rows, row.map Prod.fst = t.columns)
    ∧ (∀ s, value_to_string (Json.str s) = s)
    ∧ (∀ n, value_to_string (Json.num n) = toString n)
    ∧ (∀ b, value_to_string (Json.bool b) = if b then "true" else "false")
    ∧ value_to_string Json.null = "null"
    ∧ (∀ fields, value_to_string (Json.obj fields) = compactString (Json.obj fields))
    ∧ (∀ xs, value_to_string (Json.arr xs) = compactString (Json.arr xs)) := by
  have hne : items ≠ [] := by
    intro hnil
    subst hnil
    rw [parse_table_data] at ht
    rw [(get_bind_asArray result []).mpr hret] at ht
    simp at ht
  have hsome := parse_table_data_some result items hret hne
  rw [ht] at hsome
  have htEq : t = TableData.mk (collectColumns items)
      ((items.filterMap Json.asObject).map (buildRow (collectColumns items))) :=
    Option.some.inj hsome
  subst htEq
  refine ⟨?_, ?_, fun _ => rfl, fun _ => rfl, fun b => by cases b <;> rfl, rfl,
    fun _ => rfl, fun _ => rfl⟩
  · apply List.map_congr_left
    intro fields _
    exact buildRow_eq_match _ fields
  · intro row hrow
    rcases List.mem_map.mp hrow with ⟨fields, _, hfe⟩
    rw [← hfe]
    exact buildRow_keys _ fields

/-- Witness for C2: the first row of the spec example's table has the columns
`["a","b","c"]` as its key sequence. -/
theorem parse_table_data_rows_spec_witness :
    ([("a", "1"), ("b", "x"), ("c", "")] : List (String × String)).map Prod.fst
      = ["a", "b", "c"] :=
  (parse_table_data_rows_spec exReturnAB exItemsAB
      (TableData.mk ["a", "b", "c"]
        [[("a", "1"), ("b", "x"), ("c", "")], [("a", ""), ("b", "y"), ("c", "true")]])
      rfl rfl).2.1
    [("a", "1"), ("b", "x"), ("c", "")] (List.mem_cons_self _ _)

/-- C4: `parse_table_data` returns `none` exactly when the `"return"` key is
absent, not an array, or an empty array; in every other case it returns a
table. -/
theorem parse_table_data_none_iff (result : Json) :
    parse_table_data result = none
      ↔ ¬ ∃ items, result.get "return" = some (Json.arr items) ∧ items ≠ [] := by
  constructor
  · intro h
    rintro ⟨items, hret, hne⟩
    rw [parse_table_data_some result items hret hne] at h
    exact Option.noConfusion h
  · intro h
    cases hb : (result.get "return").bind Json.asArray with
    | none =>
      unfold parse_table_data
      rw [hb]
    | some items =>
      by_cases hne : items = []
      · subst hne
        unfold parse_table_data
        rw [hb]
        rfl
      · exact absurd ⟨items, (get_bind_asArray result items).mp hb, hne⟩ h

/-- C8: CSV export writes the header record with the columns in order, then
one record per row in order, each record listing the row's stored value for
each column in order (empty string as fallback); on the table normalized
from the spec's example it yields exactly `a,b,c`, `1,x,` and `,y,true`. -/
theorem export_to_csv_spec :
    (∀ t : TableData, (export_to_csv t).length = t.rows.length + 1)
    ∧ (∀ t : TableData, (export_to_csv t).head? = some (csvRecord t.columns))
    ∧ (∀ (t : TableData) (i : Nat),
        (export_to_csv t)[i + 1]?
          = (t.rows[i]?).map
              (fun row => csvRecord (t.columns.map (fun col => rowLookup row col))))
    ∧ (parse_table_data exReturnAB).map export_to_csv
        = some ["a,b,c", "1,x,", ",y,true"] := by
  refine ⟨fun t => by simp [export_to_csv], fun t => rfl, fun t i => ?_, rfl⟩
  simp [export_to_csv]

/-- C9: the transport client's response classification fails with the
not-an-object error whenever the parsed top-level JSON value is not an
object (arrays, scalars and null are all rejected), and on an object
returns its fields unmodified. -/
theorem classifyResponse_spec :
    (∀ fields, classifyResponse (Json.obj fields) = .ok fields)
    ∧ (∀ v : Json, v.asObject = none → classifyResponse v = .error notAnObjectMsg)
    ∧ classifyResponse (Json.arr [Json.num 1]) = .error notAnObjectMsg
    ∧ classifyResponse (Json.num 3) = .error notAnObjectMsg
    ∧ classifyResponse (Json.str "x") = .error notAnObjectMsg
    ∧ classifyResponse (Json.bool true) = .error notAnObjectMsg
    ∧ classifyResponse Json.null = .error notAnObjectMsg := by
  refine ⟨fun fields => rfl, fun v hv => ?_, rfl, rfl, rfl, rfl, rfl⟩
  rw [classifyResponse, hv]

/-- Witness for C9: a top-level JSON array is rejected. -/
theorem classifyResponse_spec_witness :
    classifyResponse (Json.arr [Json.num 1, Json.num 2]) = .error notAnObjectMsg :=
  classifyResponse_spec.2.1 (Json.arr [Json.num 1, Json.num 2]) rfl

/-- C3: for every non-empty trimmed input, `parse_query` splits on the first
`|` occurrence only — the clause is the text before it, trimmed again, and
the part after it, trimmed, is whitespace-split into non-empty projection
tokens (`none` if that part is empty); without `|` the clause is the whole
input and the projection is `none`. -/
theorem parse_query_split_spec (s : String) (_h1 : trim s = s) (_h2 : s ≠ "") :
    ('|' ∈ s.data →
      parse_query s
        = (trim ⟨s.data.takeWhile (fun c => c != '|')⟩,
           mkOptions (trim ⟨(s.data.dropWhile (fun c => c != '|')).tail⟩)))
    ∧ ('|' ∉ s.data → parse_query s = (s, none))
    ∧ (∀ r : String, ∀ tok ∈ splitWhitespace r, tok ≠ "") := by
  refine ⟨fun hm => ?_, fun hm => ?_, fun r => splitWhitespace_ne_empty r⟩
  · apply parse_query_eq_of_split
    unfold splitOnce
    rw [splitOnceList_eq, if_pos hm]
    rfl
  · apply parse_query_eq_of_nosplit
    unfold splitOnce
    rw [splitOnceList_eq, if_neg hm]
    rfl

/-- Witness for C3 at the spec's example input. -/
theorem parse_query_split_spec_witness :
    parse_query "$ from type Sound | name id"
      = ("$ from type Sound",
         some (Json.obj [("return", Json.arr [Json.str "name", Json.str "id"])])) := by
  have h := (parse_query_split_spec "$ from type Sound | name id" rfl (by decide)).1 (by decide)
  exact h.trans rfl

/-- C5: every successful `execute` call reports a count of `0` when
normalization returned `none`, and the number of rows of the normalized
table otherwise. -/
theorem execute_count_spec
    (f : String → Option Json → Except String (List (String × Json)))
    (s : String) (r : QueryResult) (h : execute f s = .ok r) :
    r.count = (match r.table_data with
               | none => 0
               | some t => t.rows.length)
    ∧ ∃ m, f (parse_query (trim s)).1 (parse_query (trim s)).2 = .ok m
         ∧ r.table_data = parse_table_data (Json.obj m) := by
  unfold execute at h
  by_cases he : trim s = ""
  · rw [if_pos he] at h
    exact absurd h (by simp)
  · rw [if_neg he] at h
    cases hf : f (parse_query (trim s)).1 (parse_query (trim s)).2 with
    | error e =>
      rw [hf] at h
      exact absurd h (by simp)
    | ok m =>
      rw [hf] at h
      have hr : QueryResult.mk (to_string_pretty (Json.obj m)) (parse_table_data (Json.obj m))
          (((parse_table_data (Json.obj m)).map (fun t => t.rows.length)).getD 0) = r :=
        Except.ok.inj h
      subst hr
      refine ⟨?_, m, rfl, rfl⟩
      cases hp : parse_table_data (Json.obj m) <;> simp [hp]

/-- Witness for C5 with a one-row client response. -/
theorem execute_count_spec_witness :
    resultOneRow.count = (match resultOneRow.table_data with
                          | none => 0
                          | some t => t.rows.length)
    ∧ ∃ m, clientOneRow (parse_query (trim "q")).1 (parse_query (trim "q")).2 = .ok m
         ∧ resultOneRow.table_data = parse_table_data (Json.obj m) :=
  execute_count_spec clientOneRow "q" resultOneRow rfl

/-- Counterexample for C6: the input `"|x"` is accepted by `execute` (its
trimmed form is non-empty), yet the constructed clause is empty. -/
theorem execute_clause_nonempty_cex :
    (∃ r, execute (fun _ _ => Except.ok []) "|x" = Except.ok r)
    ∧ (parse_query (trim "|x")).1 = "" :=
  ⟨⟨_, rfl⟩, rfl⟩

/-- C6 (amended): for every input accepted by `execute` (trimmed form
non-empty), the clause of the constructed request is a trimmed string, and
it is additionally non-empty provided the trimmed input does not start with
`|`. -/
theorem execute_clause_trimmed_nonempty (s : String) (h : trim s ≠ "") :
    trim (parse_query (trim s)).1 = (parse_query (trim s)).1
    ∧ ((trim s).data.head? ≠ some '|' → (parse_query (trim s)).1 ≠ "") := by
  by_cases hm : '|' ∈ (trim s).data
  · have hsplit : splitOnce (trim s) '|'
        = some (⟨(trim s).data.takeWhile (fun x => x != '|')⟩,
                ⟨((trim s).data.dropWhile (fun x => x != '|')).tail⟩) := by
      unfold splitOnce
      rw [splitOnceList_eq, if_pos hm]
      rfl
    rw [parse_query_eq_of_split _ _ _ hsplit]
    constructor
    · exact trim_trim _
    · intro hp
      obtain ⟨c, rest, hdata, hcw⟩ := trim_head_not_ws s h
      have hc' : (c != '|') = true := by
        simp only [bne_iff_ne, ne_eq]
        intro he
        apply hp
        rw [hdata, he]
        rfl
      have htake : (trim s).data.takeWhile (fun x => x != '|')
          = c :: rest.takeWhile (fun x => x != '|') := by
        rw [hdata]
        simp [List.takeWhile_cons, hc']
      rw [htake]
      exact trim_cons_ne_empty _ _ hcw
  · have hsplit : splitOnce (trim s) '|' = none := by
      unfold splitOnce
      rw [splitOnceList_eq, if_neg hm]
      rfl
    rw [parse_query_eq_of_nosplit _ hsplit]
    exact ⟨trim_trim s, fun _ => h⟩

/-- Witness for C6 (amended) at a padded example input. -/
theorem execute_clause_trimmed_nonempty_witness :
    trim (parse_query (trim "  $ from type Sound | name id ")).1
        = (parse_query (trim "  $ from type Sound | name id ")).1
    ∧ (parse_query (trim "  $ from type Sound | name id ")).1 ≠ "" :=
  ⟨(execute_clause_trimmed_nonempty "  $ from type Sound | name id " (by decide)).1,
   (execute_clause_trimmed_nonempty "  $ from type Sound | name id " (by decide)).2 (by decide)⟩

/-- C7: `execute` fails with the empty-query error exactly when the input
trimmed of surrounding whitespace is empty, and the error is the verbatim
single user-facing message with no nested error stack. -/
theorem execute_empty_query_iff
    (f : String → Option Json → Except String (List (String × Json))) (s : String) :
    execute f s = .error emptyQueryMsg ↔ trim s = "" := by
  constructor
  · intro h
    by_contra hne
    unfold execute at h
    rw [if_neg hne] at h
    cases hf : f (parse_query (trim s)).1 (parse_query (trim s)).2 with
    | ok m =>
      rw [hf] at h
      exact Except.noConfusion h
    | error e =>
      rw [hf] at h
      have he : queryFailedPrefix ++ e = emptyQueryMsg := Except.error.inj h
      have hd : (queryFailedPrefix ++ e).data = emptyQueryMsg.data := congrArg String.data he
      have hqd : (queryFailedPrefix ++ e).data = '查' :: ("询失败: ".data ++ e.data) := rfl
      have hmd : emptyQueryMsg.data = '请' :: "输入 WAQL 查询语句".data := rfl
      rw [hqd, hmd] at hd
      injection hd with hchar _
      exact absurd hchar (by decide)
  · intro h
    unfold execute
    rw [if_pos h]

/-- C10: a non-empty `"return"` array with no object element normalizes to a
present table with no columns and no rows (not `none`), and `execute` then
reports count `0` while carrying that empty table. -/
theorem parse_table_data_no_objects (m : List (String × Json)) (items : List Json)
    (h1 : (Json.obj m).get "return" = some (Json.arr items))
    (h2 : items ≠ [])
    (h3 : ∀ i ∈ items, i.asObject = none) :
    parse_table_data (Json.obj m) = some (TableData.mk [] [])
    ∧ ∀ s : String, trim s ≠ "" →
        execute (fun _ _ => .ok m) s
          = .ok { raw_json := to_string_pretty (Json.obj m),
                  table_data := some (TableData.mk [] []),
                  count := 0 } := by
  have hfm : items.filterMap Json.asObject = [] := by
    rw [List.filterMap_eq_nil_iff]
    exact h3
  have hkeys : items.flatMap objKeys = [] := by
    rw [List.flatMap_eq_nil_iff]
    intro i hi
    cases i with
    | obj fields => exact absurd (h3 _ hi) (by simp [Json.asObject])
    | null => rfl
    | bool b => rfl
    | num n => rfl
    | str s => rfl
    | arr xs => rfl
  have hcols : collectColumns items = [] := by
    rw [collectColumns_eq_firstSeen, hkeys, firstSeen]
  have hpt : parse_table_data (Json.obj m) = some (TableData.mk [] []) := by
    rw [parse_table_data_some (Json.obj m) items h1 h2, hcols, hfm]
    rfl
  refine ⟨hpt, fun s hs => ?_⟩
  unfold execute
  rw [if_neg hs]
  show Except.ok (QueryResult.mk (to_string_pretty (Json.obj m)) (parse_table_data (Json.obj m))
        (((parse_table_data (Json.obj m)).map (fun t => t.rows.length)).getD 0))
      = Except.ok (QueryResult.mk (to_string_pretty (Json.obj m)) (some (TableData.mk [] [])) 0)
  rw [hpt]
  rfl

/-- Witness for C10 with the array `[1, "x"]` under `"return"`. -/
theorem parse_table_data_no_objects_witness :
    execute (fun _ _ => Except.ok [("return", Json.arr [Json.num 1, Json.str "x"])]) "q"
      = Except.ok
          { raw_json :=
              to_string_pretty (Json.obj [("return", Json.arr [Json.num 1, Json.str "x"])]),
            table_data := some (TableData.mk [] []),
            count := 0 } :=
  (parse_table_data_no_objects [("return", Json.arr [Json.num 1, Json.str "x"])]
      [Json.num 1, Json.str "x"] rfl (by simp)
      (by
        intro i hi
        simp only [List.mem_cons, List.not_mem_nil, or_false] at hi
        rcases hi with rfl | rfl <;> rfl)).2
    "q" (by decide)

end WaqlTool
